import Mathlib

/-!
Verification of the binary-STL writer `test2.py`.

The program builds a hardcoded list of 12 triangles (a cube scaled by 5),
computes a unit normal for each via vector subtraction, cross product and
normalization, and serializes an 80-byte header, a 4-byte little-endian
triangle count and a fixed 50-byte record per triangle.

Modelling conventions:
* Python floats are modelled exactly: the rational source data stays in `ℚ`;
  the square root inside `vec_len` maps into `ℝ`.
* Python's `ZeroDivisionError` (raised by `1 / vec_len(n)` when the length
  is zero) is modelled by `Option`: `none` is the aborted run.
* `struct.pack('<f', x)` is modelled by a genuine IEEE-754 binary32
  round-to-nearest-even encoder producing 4 little-endian bytes.
-/

namespace TextToStl

/-- Bytes of the module-level `header` string (Python 2 byte string,
line 4 of `test2.py`): the ASCII tag `STLB ATF 2.0.0.9000 COLOR=`,
the four color marker bytes `\xa0\xa0\xa0\xff`, then 50 spaces. -/
def headerBytes : List Nat :=
  [83, 84, 76, 66, 32, 65, 84, 70, 32, 50, 46, 48, 46, 48, 46, 57, 48, 48,
   48, 32, 67, 79, 76, 79, 82, 61, 160, 160, 160, 255, 32, 32, 32, 32, 32,
   32, 32, 32, 32, 32, 32, 32, 32, 32, 32, 32, 32, 32, 32, 32, 32, 32, 32,
   32, 32, 32, 32, 32, 32, 32, 32, 32, 32, 32, 32, 32, 32, 32, 32, 32, 32,
   32, 32, 32, 32, 32, 32, 32, 32, 32]

/-- Embedding of `vec_sub` (lines 6-8): component-wise difference over the
indices of the first argument. -/
def vec_sub {α : Type} [CommRing α] (a b : List α) : List α :=
  (List.range a.length).map fun i => a.getD i 0 - b.getD i 0

/-- Embedding of `vec_add` (lines 10-12): component-wise sum. -/
def vec_add {α : Type} [CommRing α] (a b : List α) : List α :=
  (List.range a.length).map fun i => a.getD i 0 + b.getD i 0

/-- Embedding of `vec_scale` (lines 14-15): component-wise product with a
scalar. -/
def vec_scale {α : Type} [CommRing α] (a : List α) (s : α) : List α :=
  (List.range a.length).map fun i => a.getD i 0 * s

/-- Embedding of `vec_cross` (lines 17-31): the loop over `range(dim)` that
selects the cyclic index pair `(j, k)` by testing `i == 0`, `i == 1`, else,
and appends `u[j]*v[k] - u[k]*v[j]`. -/
def vec_cross {α : Type} [CommRing α] (u v : List α) : List α :=
  (List.range u.length).map fun i =>
    if i = 0 then u.getD 1 0 * v.getD 2 0 - u.getD 2 0 * v.getD 1 0
    else if i = 1 then u.getD 2 0 * v.getD 0 0 - u.getD 0 0 * v.getD 2 0
    else u.getD 0 0 * v.getD 1 0 - u.getD 1 0 * v.getD 0 0

/-- Sum of squares of the components: the radicand of `vec_len`
(line 34, `sum([ i**2 for i in a ])`). -/
def vec_len_sq {α : Type} [CommRing α] (a : List α) : α :=
  (a.map fun i => i ^ 2).sum

/-- Embedding of `vec_len` (lines 33-34): `sum([i**2 for i in a]) ** 0.5`,
the Euclidean norm, with `** 0.5` modelled as the real square root. -/
noncomputable def vec_len (a : List ℚ) : ℝ :=
  Real.sqrt ((vec_len_sq a : ℚ) : ℝ)

/-- Coordinates of one triangle: an ordered triple of vertices, each a
coordinate list, as in the Python 3-tuples of 3-tuples. -/
abbrev Tri : Type := List ℚ × List ℚ × List ℚ

/-- Embedding of the unscaled `triangles` literal (lines 38-88): twelve
triangles of a unit cube with coordinates in `{-1, 1}`. -/
def trianglesBase : List Tri :=
  [([-1, -1, -1], [-1, -1, 1], [-1, 1, 1]),
   ([1, 1, -1], [-1, -1, -1], [-1, 1, -1]),
   ([1, -1, 1], [-1, -1, -1], [1, -1, -1]),
   ([1, 1, -1], [1, -1, -1], [-1, -1, -1]),
   ([-1, -1, -1], [-1, 1, 1], [-1, 1, -1]),
   ([1, -1, 1], [-1, -1, 1], [-1, -1, -1]),
   ([-1, 1, 1], [-1, -1, 1], [1, -1, 1]),
   ([1, 1, 1], [1, -1, -1], [1, 1, -1]),
   ([1, -1, -1], [1, 1, 1], [1, -1, 1]),
   ([1, 1, 1], [1, 1, -1], [-1, 1, -1]),
   ([1, 1, 1], [-1, 1, -1], [-1, 1, 1]),
   ([1, 1, 1], [-1, 1, 1], [1, -1, 1])]

/-- Embedding of the rescaling comprehension (lines 90-92): every component
of every vertex is multiplied by 5. -/
def triangles : List Tri :=
  trianglesBase.map fun t =>
    ([t.1.getD 0 0 * 5, t.1.getD 1 0 * 5, t.1.getD 2 0 * 5],
     [t.2.1.getD 0 0 * 5, t.2.1.getD 1 0 * 5, t.2.1.getD 2 0 * 5],
     [t.2.2.getD 0 0 * 5, t.2.2.getD 1 0 * 5, t.2.2.getD 2 0 * 5])

/-- Little-endian byte list of a natural number, `w` bytes wide: the layout
of `struct.pack` with the `<` byte order. -/
def bytesLE : Nat → Nat → List Nat
  | 0, _ => []
  | w + 1, n => n % 256 :: bytesLE w (n / 256)

/-- Round a real to the nearest integer, ties to even: the rounding mode
of IEEE-754 used by `struct.pack('<f', x)`. -/
noncomputable def rne (x : ℝ) : ℤ :=
  if x - ⌊x⌋ < 1 / 2 then ⌊x⌋
  else if 1 / 2 < x - ⌊x⌋ then ⌊x⌋ + 1
  else if Even ⌊x⌋ then ⌊x⌋ else ⌊x⌋ + 1

/-- IEEE-754 binary32 bit pattern of a real number (round to nearest,
ties to even; overflow to infinity): the semantics of
`struct.pack('<f', x)` on a finite value. -/
noncomputable def f32bits (x : ℝ) : Nat :=
  if x = 0 then 0
  else
    let s : Nat := if x < 0 then 2 ^ 31 else 0
    let e : ℤ := Int.log 2 |x|
    let E : ℤ := max e (-126)
    let k : ℤ := rne (|x| * 2 ^ ((23 : ℤ) - E))
    if 2 ^ 24 ≤ k then
      if 127 < E + 1 then s + 255 * 2 ^ 23
      else s + (E + 1 + 127).toNat * 2 ^ 23
    else if 2 ^ 23 ≤ k then
      if 127 < E then s + 255 * 2 ^ 23
      else s + (E + 127).toNat * 2 ^ 23 + (k - 2 ^ 23).toNat
    else s + k.toNat

/-- Bytes of `struct.pack('<f', x)`: the binary32 pattern, little endian. -/
noncomputable def pack4 (x : ℝ) : List Nat :=
  bytesLE 4 (f32bits x)

/-- Cast of a rational coordinate list into the reals. -/
def castVec (a : List ℚ) : List ℝ :=
  a.map fun x => (x : ℝ)

/-- Embedding of line 121, `n = vec_scale(n, 1 / vec_len(n))`: the division
`1 / vec_len(n)` raises `ZeroDivisionError` exactly when `vec_len n = 0`,
which over the exact arithmetic happens exactly when the sum of squares is
zero; that aborted run is `none`. -/
noncomputable def normStep (n : List ℚ) : Option (List ℝ) :=
  if vec_len_sq n = 0 then none
  else some (vec_scale (castVec n) (1 / vec_len n))

/-- Cross product of the two edge vectors of a triangle, lines 118-120:
`n1 = vec_sub(tri[0], tri[1])`, `n2 = vec_sub(tri[1], tri[2])`,
`n = vec_cross(n1, n2)`. -/
def triCross (t : Tri) : List ℚ :=
  let n1 := vec_sub t.1 t.2.1
  let n2 := vec_sub t.2.1 t.2.2
  vec_cross n1 n2

/-- Bytes of one `struct.pack('<fff', v[0], v[1], v[2])` call on a real
coordinate list. -/
noncomputable def pack3R (v : List ℝ) : List Nat :=
  pack4 (v.getD 0 0) ++ pack4 (v.getD 1 0) ++ pack4 (v.getD 2 0)

/-- Bytes of one `struct.pack('<fff', v[0], v[1], v[2])` call on a rational
coordinate list (a vertex of the hardcoded mesh). -/
noncomputable def pack3Q (v : List ℚ) : List Nat :=
  pack4 ((v.getD 0 0 : ℚ) : ℝ) ++ pack4 ((v.getD 1 0 : ℚ) : ℝ) ++
    pack4 ((v.getD 2 0 : ℚ) : ℝ)

/-- Field bytes of one loop iteration (lines 117-127): the five `fp.write`
calls of the record — packed normal, packed vertices `tri[0]`, `tri[1]`,
`tri[2]`, and `struct.pack('<H', 0)`; `none` when normalization aborts. -/
noncomputable def triFields (t : Tri) :
    Option (List Nat × List Nat × List Nat × List Nat × List Nat) :=
  (normStep (triCross t)).map fun n =>
    (pack3R n, pack3Q t.1, pack3Q t.2.1, pack3Q t.2.2, bytesLE 2 0)

/-- Concatenation of the five per-record field byte groups, in the order
the loop writes them. -/
def join5 (f : List Nat × List Nat × List Nat × List Nat × List Nat) :
    List Nat :=
  f.1 ++ f.2.1 ++ f.2.2.1 ++ f.2.2.2.1 ++ f.2.2.2.2

/-- Bytes written by the `for tri in triangles` loop (lines 117-127), one
triangle after the other in list order; `none` as soon as one normalization
aborts the run. -/
noncomputable def recordsBytes : List Tri → Option (List Nat)
  | [] => some []
  | t :: ts =>
    match triFields t, recordsBytes ts with
    | some f, some rest => some (join5 f ++ rest)
    | _, _ => none

/-- The per-triangle field groups of a whole mesh, in list order. -/
noncomputable def meshFields :
    List Tri → Option (List (List Nat × List Nat × List Nat × List Nat × List Nat))
  | [] => some []
  | t :: ts =>
    match triFields t, meshFields ts with
    | some f, some fs => some (f :: fs)
    | _, _ => none

/-- Embedding of the writer block (lines 114-127): the header bytes, then
`struct.pack('<I', len(triangles))`, then the per-triangle records. -/
noncomputable def writeSTL (mesh : List Tri) : Option (List Nat) :=
  (recordsBytes mesh).map fun body =>
    headerBytes ++ bytesLE 4 mesh.length ++ body

/-- Value of a little-endian byte group, as decoded by `struct.unpack`
with the `<` byte order. -/
def leVal (bs : List Nat) : Nat :=
  bs.foldr (fun b acc => b + 256 * acc) 0

/-- Embedding of the reader's record loop (lines 134-139): per record it
reads 3*4 bytes of normal, 3*4 bytes per vertex, and 2 attribute bytes,
consuming 50 bytes per iteration. -/
def parseRecords :
    Nat → List Nat → List (List Nat × List Nat × List Nat × List Nat × List Nat)
  | 0, _ => []
  | n + 1, bs =>
    (bs.take 12, (bs.drop 12).take 12, (bs.drop 24).take 12,
     (bs.drop 36).take 12, (bs.drop 48).take 2) :: parseRecords n (bs.drop 50)

/-- Embedding of the reader block (lines 130-141): 80 header bytes, a
4-byte little-endian count, then `count` records. -/
def parseSTL (bs : List Nat) :
    List Nat × Nat ×
      List (List Nat × List Nat × List Nat × List Nat × List Nat) :=
  let hdr := bs.take 80
  let count := leVal ((bs.drop 80).take 4)
  (hdr, count, parseRecords count (bs.drop 84))

/-- The whole program as a function of its process environment: `test2.py`
reads no command-line arguments, no environment variables and no input
file on the live path, so the modelled run ignores them and produces the
bytes of `test.stl`. -/
noncomputable def run (_argv : List String)
    (_environ : String → Option String) (_stdin : List String) :
    Option (List Nat) :=
  writeSTL triangles

/-- Euclidean norm of a real coordinate vector: the magnitude in which the
spec states the unit-normal property. -/
noncomputable def vec_lenR (a : List ℝ) : ℝ :=
  Real.sqrt (vec_len_sq a)

/-- Modelled from the spec, section 4.1: `normalize(a) -> Vector3` is
`scale(a, 1/magnitude(a))` and fails with a divide-by-zero error exactly
when the magnitude is 0; the failure is `none`. -/
noncomputable def spec_normalize (a : List ℚ) : Option (List ℝ) :=
  have : Decidable (vec_len a = 0) := Classical.propDecidable _
  if vec_len a = 0 then none
  else some (vec_scale (castVec a) (1 / vec_len a))

/-- Modelled from the spec, section 4.3: for a triangle `(v0, v1, v2)`,
`edge1 = v0 - v1`, `edge2 = v1 - v2`, `normal = normalize(cross(edge1,
edge2))`. -/
noncomputable def spec_normal (v0 v1 v2 : List ℚ) : Option (List ℝ) :=
  spec_normalize (vec_cross (vec_sub v0 v1) (vec_sub v1 v2))

/-- First triangle of the hardcoded mesh after scaling, used as the
concrete test input of the witnesses. -/
def triTest : Tri :=
  ([-5, -5, -5], [-5, -5, 5], [-5, 5, 5])

/-- Normal vector the program computes for `triTest`. -/
noncomputable def normTest : List ℝ :=
  vec_scale (castVec (triCross triTest)) (1 / vec_len (triCross triTest))

/-! ### Helper lemmas -/

theorem bytesLE_length (w n : Nat) : (bytesLE w n).length = w := by
  induction w generalizing n with
  | zero => rfl
  | succ w ih => simp [bytesLE, ih]

theorem pack4_length (x : ℝ) : (pack4 x).length = 4 := by
  simp [pack4, bytesLE_length]

theorem pack3R_length (v : List ℝ) : (pack3R v).length = 12 := by
  simp [pack3R, pack4_length]

theorem pack3Q_length (v : List ℚ) : (pack3Q v).length = 12 := by
  simp [pack3Q, pack4_length]

theorem headerBytes_length : headerBytes.length = 80 := by decide

theorem leVal_bytesLE4 (n : Nat) (h : n < 2 ^ 32) :
    leVal (bytesLE 4 n) = n := by
  simp only [bytesLE, leVal, List.foldr]
  omega

theorem triFields_lengths (t : Tri)
    (f : List Nat × List Nat × List Nat × List Nat × List Nat)
    (h : triFields t = some f) :
    f.1.length = 12 ∧ f.2.1.length = 12 ∧ f.2.2.1.length = 12 ∧
      f.2.2.2.1.length = 12 ∧ f.2.2.2.2.length = 2 := by
  rcases hn : normStep (triCross t) with _ | n
  · simp [triFields, hn] at h
  · simp only [triFields, hn, Option.map_some', Option.some_inj] at h
    subst h
    exact ⟨pack3R_length n, pack3Q_length _, pack3Q_length _, pack3Q_length _,
      bytesLE_length 2 0⟩

theorem join5_length (t : Tri)
    (f : List Nat × List Nat × List Nat × List Nat × List Nat)
    (h : triFields t = some f) : (join5 f).length = 50 := by
  obtain ⟨h1, h2, h3, h4, h5⟩ := triFields_lengths t f h
  simp [join5, h1, h2, h3, h4, h5]

theorem recordsBytes_eq_meshFields (mesh : List Tri) :
    recordsBytes mesh =
      (meshFields mesh).map fun fs => (fs.map join5).flatten := by
  induction mesh with
  | nil => rfl
  | cons t ts ih =>
    rcases hf : triFields t with _ | f <;>
      rcases hm : meshFields ts with _ | fs <;>
        simp [recordsBytes, meshFields, hf, hm, ih]

theorem recordsBytes_length (mesh : List Tri) (body : List Nat)
    (h : recordsBytes mesh = some body) : body.length = 50 * mesh.length := by
  induction mesh generalizing body with
  | nil =>
    simp only [recordsBytes, Option.some_inj] at h
    simp [← h]
  | cons t ts ih =>
    rcases hf : triFields t with _ | f <;>
      rcases hr : recordsBytes ts with _ | rest <;>
        simp only [recordsBytes, hf, hr, Option.some_inj, reduceCtorEq] at h
    subst h
    have hrest := ih rest hr
    have hj := join5_length t f hf
    simp only [List.length_append, List.length_cons, hj, hrest]
    omega

theorem writeSTL_length (mesh : List Tri) (b : List Nat)
    (h : writeSTL mesh = some b) : b.length = 84 + 50 * mesh.length := by
  rcases hr : recordsBytes mesh with _ | body
  · simp [writeSTL, hr] at h
  · simp only [writeSTL, hr, Option.map_some', Option.some_inj] at h
    subst h
    have hb := recordsBytes_length mesh body hr
    simp [List.length_append, headerBytes_length, bytesLE_length, hb]
    omega

theorem normStep_isSome (a : List ℚ) :
    (normStep a).isSome = true ↔ vec_len_sq a ≠ 0 := by
  by_cases h : vec_len_sq a = 0 <;> simp [normStep, h]

theorem triFields_isSome (t : Tri) :
    (triFields t).isSome = true ↔ vec_len_sq (triCross t) ≠ 0 := by
  rw [← normStep_isSome]
  rcases hn : normStep (triCross t) with _ | n <;> simp [triFields, hn]

theorem recordsBytes_isSome (mesh : List Tri) :
    (recordsBytes mesh).isSome = true ↔
      ∀ t ∈ mesh, vec_len_sq (triCross t) ≠ 0 := by
  induction mesh with
  | nil => simp [recordsBytes]
  | cons t ts ih =>
    rcases hf : triFields t with _ | f
    · have h0 : vec_len_sq (triCross t) = 0 := by
        by_contra hne
        have hs := (triFields_isSome t).mpr hne
        rw [hf] at hs
        simp at hs
      have hno : ¬∀ u ∈ t :: ts, vec_len_sq (triCross u) ≠ 0 := fun h =>
        absurd h0 (h t (by simp))
      rcases hr : recordsBytes ts with _ | rest <;>
        simp only [recordsBytes, hf, hr] <;>
          constructor <;> intro h
      · simp at h
      · exact absurd h hno
      · simp at h
      · exact absurd h hno
    · have h0 : vec_len_sq (triCross t) ≠ 0 :=
        (triFields_isSome t).mp (by simp [hf])
      rcases hr : recordsBytes ts with _ | rest
      · have hts : ¬∀ u ∈ ts, vec_len_sq (triCross u) ≠ 0 := by
          rw [← ih, hr]; simp
        simp only [recordsBytes, hf, hr]
        constructor
        · intro h; simp at h
        · intro h
          exact absurd (fun u hu => h u (List.mem_cons_of_mem _ hu)) hts
      · have hts : ∀ u ∈ ts, vec_len_sq (triCross u) ≠ 0 := by
          rw [← ih, hr]; simp
        simp only [recordsBytes, hf, hr]
        constructor
        · intro _ u hu
          rcases List.mem_cons.mp hu with rfl | hu
          · exact h0
          · exact hts u hu
        · intro _; simp

theorem writeSTL_isSome (mesh : List Tri) :
    (writeSTL mesh).isSome = true ↔
      ∀ t ∈ mesh, vec_len_sq (triCross t) ≠ 0 := by
  rw [← recordsBytes_isSome]
  rcases hr : recordsBytes mesh with _ | body <;> simp [writeSTL, hr]

theorem vec_len_sq_nonneg {α : Type} [LinearOrderedCommRing α] (a : List α) :
    0 ≤ vec_len_sq a := by
  refine List.sum_nonneg fun x hx => ?_
  obtain ⟨y, _, rfl⟩ := List.mem_map.mp hx
  exact sq_nonneg y

theorem vec_len_eq_zero (a : List ℚ) : vec_len a = 0 ↔ vec_len_sq a = 0 := by
  have h0 : (0 : ℝ) ≤ ((vec_len_sq a : ℚ) : ℝ) := by
    exact_mod_cast vec_len_sq_nonneg a
  rw [vec_len, Real.sqrt_eq_zero']
  constructor
  · intro hle
    have : ((vec_len_sq a : ℚ) : ℝ) = 0 := le_antisymm hle h0
    exact_mod_cast this
  · intro he
    rw [he]
    simp

theorem triangles_length : triangles.length = 12 := rfl

theorem triangles_nondegenerate :
    ∀ t ∈ triangles, vec_len_sq (triCross t) ≠ 0 := by
  intro t ht
  fin_cases ht <;>
    simp [triCross, vec_sub, vec_cross, vec_len_sq, List.range_succ,
      triangles, trianglesBase] <;> norm_num

theorem normStep_eq_none (a : List ℚ) :
    normStep a = none ↔ vec_len_sq a = 0 := by
  by_cases h : vec_len_sq a = 0 <;> simp [normStep, h]

theorem normStep_eq_spec_normalize (a : List ℚ) :
    normStep a = spec_normalize a := by
  by_cases h : vec_len_sq a = 0
  · rw [normStep, if_pos h, spec_normalize]
    rw [if_pos ((vec_len_eq_zero a).mpr h)]
  · rw [normStep, if_neg h, spec_normalize]
    rw [if_neg (fun hl => h ((vec_len_eq_zero a).mp hl))]

theorem vec_sub_length {α : Type} [CommRing α] (a b : List α) :
    (vec_sub a b).length = a.length := by
  simp [vec_sub]

theorem vec_scale_length {α : Type} [CommRing α] (a : List α) (s : α) :
    (vec_scale a s).length = a.length := by
  simp [vec_scale]

theorem vec_scale_eq_map {α : Type} [CommRing α] (a : List α) (s : α) :
    vec_scale a s = a.map fun x => x * s := by
  induction a with
  | nil => rfl
  | cons x xs ih =>
    simp only [List.map_cons, ← ih]
    simp [vec_scale, List.range_succ_eq_map, List.map_map, Function.comp_def]

theorem vec_len_sq_nil {α : Type} [CommRing α] :
    vec_len_sq ([] : List α) = 0 := rfl

theorem vec_len_sq_cons {α : Type} [CommRing α] (x : α) (l : List α) :
    vec_len_sq (x :: l) = x ^ 2 + vec_len_sq l := by
  simp [vec_len_sq]

theorem vec_len_sq_scale {α : Type} [CommRing α] (a : List α) (s : α) :
    vec_len_sq (vec_scale a s) = vec_len_sq a * s ^ 2 := by
  rw [vec_scale_eq_map]
  induction a with
  | nil => simp [vec_len_sq]
  | cons x xs ih =>
    simp only [List.map_cons, vec_len_sq_cons, ih]
    ring

theorem vec_len_sq_castVec (a : List ℚ) :
    vec_len_sq (castVec a) = ((vec_len_sq a : ℚ) : ℝ) := by
  induction a with
  | nil => simp [castVec, vec_len_sq]
  | cons x xs ih =>
    show vec_len_sq ((x : ℝ) :: castVec xs) = _
    rw [vec_len_sq_cons, ih, vec_len_sq_cons]
    push_cast
    ring

theorem vec_cross_scale_right (u : List ℚ) (c : ℚ) (h : u.length = 3) :
    vec_cross u (vec_scale u c) = [0, 0, 0] := by
  obtain ⟨x, y, z, rfl⟩ := List.length_eq_three.mp h
  simp [vec_cross, vec_scale, List.range_succ, mul_comm, mul_left_comm,
    mul_assoc]

theorem vec_cross_scale_left (v : List ℚ) (c : ℚ) (h : v.length = 3) :
    vec_cross (vec_scale v c) v = [0, 0, 0] := by
  obtain ⟨x, y, z, rfl⟩ := List.length_eq_three.mp h
  simp [vec_cross, vec_scale, List.range_succ, mul_comm, mul_left_comm,
    mul_assoc]

theorem triTest_mem : triTest ∈ triangles := by
  simp [triangles, trianglesBase, triTest]

theorem triTest_cross_ne : vec_len_sq (triCross triTest) ≠ 0 := by
  norm_num [triCross, vec_sub, vec_cross, vec_len_sq, List.range_succ,
    triTest]

theorem normStep_triTest : normStep (triCross triTest) = some normTest := by
  rw [normStep, if_neg triTest_cross_ne, normTest]

theorem meshFields_triTest :
    meshFields [triTest] = some [(pack3R normTest, pack3Q triTest.1,
      pack3Q triTest.2.1, pack3Q triTest.2.2, [0, 0])] := by
  simp [meshFields, triFields, normStep_triTest]
  rfl

theorem writeSTL_triTest :
    writeSTL [triTest] = some (headerBytes ++ bytesLE 4 1 ++
      join5 (pack3R normTest, pack3Q triTest.1, pack3Q triTest.2.1,
        pack3Q triTest.2.2, [0, 0])) := by
  rw [writeSTL, recordsBytes_eq_meshFields, meshFields_triTest]
  simp [join5]

theorem record_chunks (f1 f2 f3 f4 f5 rest : List Nat)
    (h1 : f1.length = 12) (h2 : f2.length = 12) (h3 : f3.length = 12)
    (h4 : f4.length = 12) (h5 : f5.length = 2) :
    (f1 ++ (f2 ++ (f3 ++ (f4 ++ (f5 ++ rest))))).take 12 = f1 ∧
    ((f1 ++ (f2 ++ (f3 ++ (f4 ++ (f5 ++ rest))))).drop 12).take 12 = f2 ∧
    ((f1 ++ (f2 ++ (f3 ++ (f4 ++ (f5 ++ rest))))).drop 24).take 12 = f3 ∧
    ((f1 ++ (f2 ++ (f3 ++ (f4 ++ (f5 ++ rest))))).drop 36).take 12 = f4 ∧
    ((f1 ++ (f2 ++ (f3 ++ (f4 ++ (f5 ++ rest))))).drop 48).take 2 = f5 ∧
    (f1 ++ (f2 ++ (f3 ++ (f4 ++ (f5 ++ rest))))).drop 50 = rest := by
  have d12 : (f1 ++ (f2 ++ (f3 ++ (f4 ++ (f5 ++ rest))))).drop 12 =
      f2 ++ (f3 ++ (f4 ++ (f5 ++ rest))) := List.drop_left' h1
  have d24 : (f1 ++ (f2 ++ (f3 ++ (f4 ++ (f5 ++ rest))))).drop 24 =
      f3 ++ (f4 ++ (f5 ++ rest)) := by
    rw [show (24 : Nat) = 12 + 12 from rfl, ← List.drop_drop, d12,
      List.drop_left' h2]
  have d36 : (f1 ++ (f2 ++ (f3 ++ (f4 ++ (f5 ++ rest))))).drop 36 =
      f4 ++ (f5 ++ rest) := by
    rw [show (36 : Nat) = 24 + 12 from rfl, ← List.drop_drop, d24,
      List.drop_left' h3]
  have d48 : (f1 ++ (f2 ++ (f3 ++ (f4 ++ (f5 ++ rest))))).drop 48 =
      f5 ++ rest := by
    rw [show (48 : Nat) = 36 + 12 from rfl, ← List.drop_drop, d36,
      List.drop_left' h4]
  have d50 : (f1 ++ (f2 ++ (f3 ++ (f4 ++ (f5 ++ rest))))).drop 50 = rest := by
    rw [show (50 : Nat) = 48 + 2 from rfl, ← List.drop_drop, d48,
      List.drop_left' h5]
  exact ⟨List.take_left' h1, by rw [d12, List.take_left' h2],
    by rw [d24, List.take_left' h3], by rw [d36, List.take_left' h4],
    by rw [d48, List.take_left' h5], d50⟩

theorem parseRecords_meshFields (mesh : List Tri)
    (fs : List (List Nat × List Nat × List Nat × List Nat × List Nat))
    (h : meshFields mesh = some fs) :
    parseRecords mesh.length ((fs.map join5).flatten) = fs := by
  induction mesh generalizing fs with
  | nil =>
    simp only [meshFields, Option.some_inj] at h
    subst h
    rfl
  | cons t ts ih =>
    rcases hf : triFields t with _ | f <;>
      rcases hm : meshFields ts with _ | gs <;>
        simp only [meshFields, hf, hm, Option.some_inj, reduceCtorEq] at h
    subst h
    obtain ⟨h1, h2, h3, h4, h5⟩ := triFields_lengths t f hf
    obtain ⟨c1, c2, c3, c4, c5, c6⟩ :=
      record_chunks f.1 f.2.1 f.2.2.1 f.2.2.2.1 f.2.2.2.2
        ((gs.map join5).flatten) h1 h2 h3 h4 h5
    have hjoin : ((f :: gs).map join5).flatten =
        f.1 ++ (f.2.1 ++ (f.2.2.1 ++ (f.2.2.2.1 ++
          (f.2.2.2.2 ++ (gs.map join5).flatten)))) := by
      simp [join5, List.append_assoc]
    rw [List.length_cons, parseRecords, hjoin, c1, c2, c3, c4, c5, c6,
      ih gs hm]

/-! ### Claims -/

/-- C1: the 4-byte little-endian triangle count field of the hardcoded
12-triangle mesh equals 12, the total written stream is 684 bytes, and in
general the output of a mesh of N triangles is 84 + 50 * N bytes long. -/
theorem claim_C1_output_size :
    (∀ mesh : List Tri, (writeSTL mesh).map List.length =
      (writeSTL mesh).map fun _ => 84 + 50 * mesh.length) ∧
    (writeSTL triangles).isSome = true ∧
    ((writeSTL triangles).getD []).length = 684 ∧
    (((writeSTL triangles).getD []).drop 80).take 4 = [12, 0, 0, 0] := by
  have hsome : (writeSTL triangles).isSome = true :=
    (writeSTL_isSome triangles).mpr triangles_nondegenerate
  obtain ⟨b, hb⟩ := Option.isSome_iff_exists.mp hsome
  refine ⟨fun mesh => ?_, hsome, ?_, ?_⟩
  · rcases h : writeSTL mesh with _ | c
    · simp
    · simp [writeSTL_length mesh c h]
  · rw [hb]
    simp [writeSTL_length triangles b hb, triangles_length]
  · rcases hr : recordsBytes triangles with _ | body
    · rw [writeSTL, hr] at hb
      simp at hb
    · rw [writeSTL, hr]
      simp only [Option.map_some', Option.getD_some, List.append_assoc]
      rw [List.drop_left' headerBytes_length,
        List.take_left' (bytesLE_length 4 triangles.length), triangles_length]
      rfl

/-- C2: the header written at the start of the output stream is exactly
80 bytes long. -/
theorem claim_C2_header_80 :
    headerBytes.length = 80 ∧
    ∀ mesh : List Tri, (writeSTL mesh).map (List.take 80) =
      (writeSTL mesh).map fun _ => headerBytes := by
  refine ⟨headerBytes_length, fun mesh => ?_⟩
  rcases hr : recordsBytes mesh with _ | body <;> simp only [writeSTL, hr]
  · rfl
  · simp only [Option.map_some', Option.some_inj, ← List.append_assoc]
    rw [List.take_append_of_le_length (by simp [headerBytes_length]),
      List.take_left' headerBytes_length]

/-- C3: for every triangle, in mesh order, the writer emits exactly the
record: packed normal (3 little-endian 4-byte floats), packed vertices
`v0`, `v1`, `v2` (3 floats each), then the 2-byte attribute field with
value 0 (bytes `[0, 0]`); the record stream is their concatenation in
list order. -/
theorem claim_C3_record_layout (mesh : List Tri)
    (fs : List (List Nat × List Nat × List Nat × List Nat × List Nat))
    (h : meshFields mesh = some fs) :
    List.Forall₂ (fun (t : Tri) f => ∃ n, normStep (triCross t) = some n ∧
      f = (pack3R n, pack3Q t.1, pack3Q t.2.1, pack3Q t.2.2, [0, 0]))
      mesh fs ∧
    recordsBytes mesh = some ((fs.map join5).flatten) := by
  constructor
  · induction mesh generalizing fs with
    | nil =>
      simp only [meshFields, Option.some_inj] at h
      subst h
      exact List.Forall₂.nil
    | cons t ts ih =>
      rcases hf : triFields t with _ | f <;>
        rcases hm : meshFields ts with _ | gs <;>
          simp only [meshFields, hf, hm, Option.some_inj, reduceCtorEq] at h
      subst h
      refine List.Forall₂.cons ?_ (ih gs hm)
      rcases hn : normStep (triCross t) with _ | n
      · rw [triFields, hn] at hf
        simp at hf
      · rw [triFields, hn] at hf
        simp only [Option.map_some', Option.some_inj] at hf
        exact ⟨n, rfl, by rw [← hf]; rfl⟩
  · rw [recordsBytes_eq_meshFields, h]
    rfl

/-- Witness for C3 on the one-triangle mesh `[triTest]`. -/
theorem claim_C3_record_layout_witness :
    List.Forall₂ (fun (t : Tri) f => ∃ n, normStep (triCross t) = some n ∧
      f = (pack3R n, pack3Q t.1, pack3Q t.2.1, pack3Q t.2.2, [0, 0]))
      [triTest]
      [(pack3R normTest, pack3Q triTest.1, pack3Q triTest.2.1,
        pack3Q triTest.2.2, [0, 0])] ∧
    recordsBytes [triTest] = some
      (([(pack3R normTest, pack3Q triTest.1, pack3Q triTest.2.1,
        pack3Q triTest.2.2, [0, 0])].map join5).flatten) :=
  claim_C3_record_layout [triTest]
    [(pack3R normTest, pack3Q triTest.1, pack3Q triTest.2.1,
      pack3Q triTest.2.2, [0, 0])] meshFields_triTest

/-- C4: `vec_cross` applied to two 3-dimensional vectors returns the
standard cross product, component `i` being `u[j]*v[k] - u[k]*v[j]` for
the cyclic triples `(0,1,2)`, `(1,2,0)`, `(2,0,1)`. -/
theorem claim_C4_cross_product (a b c d e f : ℚ) :
    vec_cross [a, b, c] [d, e, f] =
      [b * f - c * e, c * d - a * f, a * e - b * d] := by
  simp [vec_cross, List.range_succ]

/-- C5: the normal the writer emits for a triangle `(v0, v1, v2)` is
`normalize(cross(v0 - v1, v1 - v2))`: the loop's normalization step agrees
with the spec-worded composition, both as a vector and as the first packed
field of the record. -/
theorem claim_C5_normal_formula (t : Tri) :
    normStep (triCross t) = spec_normal t.1 t.2.1 t.2.2 ∧
    (triFields t).map (fun f => f.1) =
      (spec_normal t.1 t.2.1 t.2.2).map pack3R := by
  have h : normStep (triCross t) = spec_normal t.1 t.2.1 t.2.2 := by
    rw [spec_normal, ← normStep_eq_spec_normalize]
    rfl
  refine ⟨h, ?_⟩
  rw [triFields, h]
  rcases spec_normal t.1 t.2.1 t.2.2 with _ | n <;> simp

/-- C6: the normalization step fails with a divide-by-zero exactly when the
magnitude of the vector is 0, and such a failure aborts the run: the writer
produces no byte stream exactly when some triangle's normalization fails. -/
theorem claim_C6_zero_divide (a : List ℚ) (mesh : List Tri) :
    (normStep a = none ↔ vec_len a = 0) ∧
    (writeSTL mesh = none ↔ ∃ t ∈ mesh, normStep (triCross t) = none) := by
  constructor
  · rw [normStep_eq_none]
    exact (vec_len_eq_zero a).symm
  · constructor
    · intro h
      have hn : ¬(writeSTL mesh).isSome = true := by rw [h]; simp
      rw [writeSTL_isSome] at hn
      push_neg at hn
      obtain ⟨t, ht, h0⟩ := hn
      exact ⟨t, ht, (normStep_eq_none _).mpr h0⟩
    · rintro ⟨t, ht, hn⟩
      have h0 : vec_len_sq (triCross t) = 0 := (normStep_eq_none _).mp hn
      rcases hw : writeSTL mesh with _ | b
      · rfl
      · have hall := (writeSTL_isSome mesh).mp (by rw [hw]; rfl)
        exact absurd h0 (hall t ht)

/-- C7: for every triangle whose cross product of edge vectors is non-zero
(equivalently, non-zero and non-parallel edges), the emitted normal has
magnitude 1, in particular within the tolerance 1e-6. -/
theorem claim_C7_unit_normal (t : Tri)
    (h : vec_len_sq (triCross t) ≠ 0) :
    |vec_lenR ((normStep (triCross t)).getD []) - 1| ≤ 1 / 1000000 := by
  have h0 : (0 : ℚ) ≤ vec_len_sq (triCross t) := vec_len_sq_nonneg _
  have hR0 : (0 : ℝ) ≤ ((vec_len_sq (triCross t) : ℚ) : ℝ) := by
    exact_mod_cast h0
  have hRne : ((vec_len_sq (triCross t) : ℚ) : ℝ) ≠ 0 := by
    exact_mod_cast h
  rw [normStep, if_neg h]
  simp only [Option.getD_some]
  have hlen : vec_len_sq (vec_scale (castVec (triCross t))
      (1 / vec_len (triCross t))) = 1 := by
    rw [vec_len_sq_scale, vec_len_sq_castVec, vec_len, div_pow, one_pow,
      Real.sq_sqrt hR0, mul_one_div, div_self hRne]
  rw [vec_lenR, hlen, Real.sqrt_one]
  norm_num

/-- Witness for C7 at the first triangle of the hardcoded mesh. -/
theorem claim_C7_unit_normal_witness :
    vec_len_sq (triCross triTest) ≠ 0 ∧
    |vec_lenR ((normStep (triCross triTest)).getD []) - 1| ≤ 1 / 1000000 :=
  ⟨triTest_cross_ne, claim_C7_unit_normal triTest triTest_cross_ne⟩

/-- C8: parsing the written byte stream with the reader's layout (80-byte
header, 4-byte little-endian count, per-record byte groups of 12, 12, 12,
12 and 2 bytes) recovers byte-for-byte the header, the triangle count and
every per-triangle field group that was written. -/
theorem claim_C8_roundtrip (mesh : List Tri) (b : List Nat)
    (fs : List (List Nat × List Nat × List Nat × List Nat × List Nat))
    (hw : writeSTL mesh = some b) (hm : meshFields mesh = some fs)
    (hcount : mesh.length < 2 ^ 32) :
    parseSTL b = (headerBytes, mesh.length, fs) := by
  have hr : recordsBytes mesh = some ((fs.map join5).flatten) := by
    rw [recordsBytes_eq_meshFields, hm]
    rfl
  rw [writeSTL, hr] at hw
  simp only [Option.map_some', Option.some_inj] at hw
  subst hw
  simp only [parseSTL, List.append_assoc]
  have h80 : (headerBytes ++ (bytesLE 4 mesh.length ++
      (fs.map join5).flatten)).drop 80 =
      bytesLE 4 mesh.length ++ (fs.map join5).flatten :=
    List.drop_left' headerBytes_length
  have hcnt : leVal (((headerBytes ++ (bytesLE 4 mesh.length ++
      (fs.map join5).flatten)).drop 80).take 4) = mesh.length := by
    rw [h80, List.take_left' (bytesLE_length 4 mesh.length),
      leVal_bytesLE4 mesh.length hcount]
  have h84 : (headerBytes ++ (bytesLE 4 mesh.length ++
      (fs.map join5).flatten)).drop 84 = (fs.map join5).flatten := by
    rw [show (84 : Nat) = 80 + 4 from rfl, ← List.drop_drop, h80,
      List.drop_left' (bytesLE_length 4 mesh.length)]
  rw [List.take_left' headerBytes_length, hcnt, h84,
    parseRecords_meshFields mesh fs hm]

/-- Witness for C8 on the one-triangle mesh `[triTest]`. -/
theorem claim_C8_roundtrip_witness :
    parseSTL (headerBytes ++ bytesLE 4 1 ++
      join5 (pack3R normTest, pack3Q triTest.1, pack3Q triTest.2.1,
        pack3Q triTest.2.2, [0, 0])) =
      (headerBytes, 1,
       [(pack3R normTest, pack3Q triTest.1, pack3Q triTest.2.1,
         pack3Q triTest.2.2, [0, 0])]) :=
  claim_C8_roundtrip [triTest] _
    [(pack3R normTest, pack3Q triTest.1, pack3Q triTest.2.1,
      pack3Q triTest.2.2, [0, 0])]
    writeSTL_triTest meshFields_triTest (by decide)

/-- C9: every one of the 12 hardcoded scaled triangles has non-zero,
non-parallel edge vectors, its cross product has non-zero squared length,
its normalization step succeeds, and the whole serialization loop
completes. -/
theorem claim_C9_mesh_safe :
    triangles.Forall (fun t =>
      vec_sub t.1 t.2.1 ≠ [0, 0, 0] ∧
      vec_sub t.2.1 t.2.2 ≠ [0, 0, 0] ∧
      (∀ c : ℚ, vec_sub t.2.1 t.2.2 ≠ vec_scale (vec_sub t.1 t.2.1) c ∧
        vec_sub t.1 t.2.1 ≠ vec_scale (vec_sub t.2.1 t.2.2) c) ∧
      vec_len_sq (triCross t) ≠ 0 ∧
      (normStep (triCross t)).isSome = true) ∧
    (writeSTL triangles).isSome = true := by
  refine ⟨List.forall_iff_forall_mem.mpr fun t ht => ?_,
    (writeSTL_isSome triangles).mpr triangles_nondegenerate⟩
  have h0 := triangles_nondegenerate t ht
  have hcross : triCross t =
      vec_cross (vec_sub t.1 t.2.1) (vec_sub t.2.1 t.2.2) := rfl
  have hl1 : (vec_sub t.1 t.2.1).length = 3 := by
    rw [vec_sub_length]
    fin_cases ht <;> simp [triangles, trianglesBase]
  have hl2 : (vec_sub t.2.1 t.2.2).length = 3 := by
    rw [vec_sub_length]
    fin_cases ht <;> simp [triangles, trianglesBase]
  obtain ⟨x1, y1, z1, he1⟩ := List.length_eq_three.mp hl1
  obtain ⟨x2, y2, z2, he2⟩ := List.length_eq_three.mp hl2
  refine ⟨?_, ?_, fun c => ⟨?_, ?_⟩, h0, (normStep_isSome _).mpr h0⟩
  · intro hz
    apply h0
    rw [hcross, hz, he2]
    simp [vec_cross, vec_len_sq, List.range_succ]
  · intro hz
    apply h0
    rw [hcross, hz, he1]
    simp [vec_cross, vec_len_sq, List.range_succ]
  · intro hz
    apply h0
    rw [hcross, hz, vec_cross_scale_right _ c hl1]
    simp [vec_len_sq]
  · intro hz
    apply h0
    rw [hcross, hz, vec_cross_scale_left _ c hl2]
    simp [vec_len_sq]

/-- C10: the program reads no command-line arguments, no environment and
no input file, so the bytes produced by any two runs coincide. -/
theorem claim_C10_deterministic
    (argv₁ argv₂ : List String) (env₁ env₂ : String → Option String)
    (stdin₁ stdin₂ : List String) :
    run argv₁ env₁ stdin₁ = run argv₂ env₂ stdin₂ := rfl

end TextToStl
